import Mathlib

/-!
Verification of the in-memory todo application
(`src/Phase I/src/models/task.py` and `src/Phase I/src/services/todo_service.py`).

The Python code is shallowly embedded as pure Lean functions: the mutable
`TaskList` object becomes an explicit state value that every operation
returns alongside its result, and the `ValueError` raised by the service
layer becomes an `Except.error` result paired with the (unchanged) state.
Python `int` identifiers are embedded as `Int`; `str.strip()` is embedded
as the structural function `pyStrip`.
-/

namespace Todo

/-- Embeds the `Task` dataclass of `src/models/task.py`:
`id`, `description`, `is_complete` (default `False`). -/
structure Task where
  id : Int
  description : String
  is_complete : Bool := false
deriving Repr, DecidableEq

/-- Embeds the `TaskList` class state: `self.tasks` (insertion-ordered list)
and `self._next_id` (starts at 1). -/
structure TaskList where
  tasks : List Task
  next_id : Int
deriving Repr, DecidableEq

/-- Embeds `TaskList.__init__`: empty task list, `_next_id = 1`. -/
def TaskList.mkEmpty : TaskList :=
  { tasks := [], next_id := 1 }

/-- Embeds `TaskList.add`: create a task with the current `_next_id`, append it,
increment the counter, return the created task (paired with the new state). -/
def TaskList.add (tl : TaskList) (description : String) : Task × TaskList :=
  let task : Task := { id := tl.next_id, description := description, is_complete := false }
  (task, { tasks := tl.tasks ++ [task], next_id := tl.next_id + 1 })

/-- Embeds `TaskList.get_by_id`: linear scan, first task whose `id` matches, else `None`. -/
def TaskList.get_by_id (tl : TaskList) (task_id : Int) : Option Task :=
  tl.tasks.find? (fun t => t.id == task_id)

/-- Embeds `TaskList.get_all`: returns `self.tasks.copy()`; as a pure value this is
the list itself (the aliasing aspect of `.copy()` is studied separately in
the reference-semantics model `HeapState` below). -/
def TaskList.get_all (tl : TaskList) : List Task :=
  tl.tasks

/-- Replace the first element satisfying `p` by its image under `f`
(the Python pattern `task = get_by_id(...); task.<field> = v`, which mutates
the first matching object in place). -/
def updateFirst (p : Task → Bool) (f : Task → Task) : List Task → List Task
  | [] => []
  | t :: ts => if p t then f t :: ts else t :: updateFirst p f ts

/-- Embeds `TaskList.update`: find the task via `get_by_id`; if present, set its
`description` to `new_description` and return `True`, else return `False`. -/
def TaskList.update (tl : TaskList) (task_id : Int) (new_description : String) :
    Bool × TaskList :=
  match tl.get_by_id task_id with
  | some _ =>
      (true, { tl with
        tasks := updateFirst (fun t => t.id == task_id)
          (fun t => { t with description := new_description }) tl.tasks })
  | none => (false, tl)

/-- The deletion loop of `TaskList.delete`: remove the first task whose `id`
matches, reporting whether one was removed. -/
def deleteFirst (p : Task → Bool) : List Task → Bool × List Task
  | [] => (false, [])
  | t :: ts =>
      if p t then (true, ts)
      else
        let r := deleteFirst p ts
        (r.1, t :: r.2)

/-- Embeds `TaskList.delete`: delete the first task with the given id (`del self.tasks[i]`),
returning `True` on success and `False` when no task matches. -/
def TaskList.delete (tl : TaskList) (task_id : Int) : Bool × TaskList :=
  let r := deleteFirst (fun t => t.id == task_id) tl.tasks
  (r.1, { tl with tasks := r.2 })

/-- Embeds `TaskList.mark_complete`: find via `get_by_id`; if present set
`is_complete = True` and return `True`, else `False`. -/
def TaskList.mark_complete (tl : TaskList) (task_id : Int) : Bool × TaskList :=
  match tl.get_by_id task_id with
  | some _ =>
      (true, { tl with
        tasks := updateFirst (fun t => t.id == task_id)
          (fun t => { t with is_complete := true }) tl.tasks })
  | none => (false, tl)

/-- Embeds `TaskList.mark_incomplete`: find via `get_by_id`; if present set
`is_complete = False` and return `True`, else `False`. -/
def TaskList.mark_incomplete (tl : TaskList) (task_id : Int) : Bool × TaskList :=
  match tl.get_by_id task_id with
  | some _ =>
      (true, { tl with
        tasks := updateFirst (fun t => t.id == task_id)
          (fun t => { t with is_complete := false }) tl.tasks })
  | none => (false, tl)

/-- Embeds `TodoService` of `src/services/todo_service.py`: wraps one
`TaskList` (`self._task_list`). -/
structure TodoService where
  task_list : TaskList
deriving Repr, DecidableEq

/-- Embeds `TodoService.__init__`: a fresh `TaskList`. -/
def TodoService.mkEmpty : TodoService :=
  { task_list := TaskList.mkEmpty }

/-- Python's `str.strip()`: remove leading and trailing whitespace
(whitespace modelled by `Char.isWhitespace`). -/
def pyStrip (s : String) : String :=
  String.mk (((s.data.dropWhile Char.isWhitespace).reverse.dropWhile Char.isWhitespace).reverse)

/-- The validation test `not description or description.strip() == ""` of the
service layer (`not description` is truth-testing: it holds exactly for `""`). -/
def blank (s : String) : Bool :=
  s == "" || pyStrip s == ""

instance {ε α : Type} [DecidableEq ε] [DecidableEq α] : DecidableEq (Except ε α) := by
  intro a b
  cases a <;> cases b
  case error.error e f =>
    exact if h : e = f then .isTrue (by rw [h]) else .isFalse (fun hh => h (Except.error.inj hh))
  case error.ok e y => exact .isFalse (fun hh => Except.noConfusion hh)
  case ok.error x f => exact .isFalse (fun hh => Except.noConfusion hh)
  case ok.ok x y =>
    exact if h : x = y then .isTrue (by rw [h]) else .isFalse (fun hh => h (Except.ok.inj hh))

/-- Embeds `TodoService.add_task`: raises `ValueError("Description cannot be empty.")`
for an empty or whitespace-only description (state unchanged), otherwise
delegates to `TaskList.add`. -/
def TodoService.add_task (s : TodoService) (description : String) :
    Except String Task × TodoService :=
  if blank description then
    (Except.error "Description cannot be empty.", s)
  else
    let r := s.task_list.add description
    (Except.ok r.1, { task_list := r.2 })

/-- Embeds `TodoService.get_all_tasks`: delegates to `TaskList.get_all`. -/
def TodoService.get_all_tasks (s : TodoService) : List Task :=
  s.task_list.get_all

/-- Embeds `TodoService.get_task`: delegates to `TaskList.get_by_id`. -/
def TodoService.get_task (s : TodoService) (task_id : Int) : Option Task :=
  s.task_list.get_by_id task_id

/-- Embeds `TodoService.update_task`: raises `ValueError` for an empty or
whitespace-only description (state unchanged), otherwise delegates to
`TaskList.update`. -/
def TodoService.update_task (s : TodoService) (task_id : Int) (new_description : String) :
    Except String Bool × TodoService :=
  if blank new_description then
    (Except.error "Description cannot be empty.", s)
  else
    let r := s.task_list.update task_id new_description
    (Except.ok r.1, { task_list := r.2 })

/-- Embeds `TodoService.delete_task`: delegates to `TaskList.delete`. -/
def TodoService.delete_task (s : TodoService) (task_id : Int) : Bool × TodoService :=
  let r := s.task_list.delete task_id
  (r.1, { task_list := r.2 })

/-- Embeds `TodoService.mark_complete`: delegates to `TaskList.mark_complete`. -/
def TodoService.mark_complete (s : TodoService) (task_id : Int) : Bool × TodoService :=
  let r := s.task_list.mark_complete task_id
  (r.1, { task_list := r.2 })

/-- Embeds `TodoService.mark_incomplete`: delegates to `TaskList.mark_incomplete`. -/
def TodoService.mark_incomplete (s : TodoService) (task_id : Int) : Bool × TodoService :=
  let r := s.task_list.mark_incomplete task_id
  (r.1, { task_list := r.2 })

/-- One state-changing service call, for reasoning about arbitrary
operation sequences. -/
inductive Op where
  | add_task (description : String)
  | update_task (task_id : Int) (new_description : String)
  | delete_task (task_id : Int)
  | mark_complete (task_id : Int)
  | mark_incomplete (task_id : Int)
deriving Repr, DecidableEq

/-- The state reached after one service call (a raised `ValueError` leaves
the state unchanged, as does any failed lookup). -/
def stepOp (s : TodoService) : Op → TodoService
  | .add_task d => (s.add_task d).2
  | .update_task i d => (s.update_task i d).2
  | .delete_task i => (s.delete_task i).2
  | .mark_complete i => (s.mark_complete i).2
  | .mark_incomplete i => (s.mark_incomplete i).2

/-- Run a sequence of service calls from a given state. -/
def runFrom (s : TodoService) : List Op → TodoService
  | [] => s
  | op :: ops => runFrom (stepOp s op) ops

/-- Run a sequence of service calls from a freshly constructed service. -/
def runOps (ops : List Op) : TodoService :=
  runFrom TodoService.mkEmpty ops

/-- The identifiers returned by the successful `add_task` calls of a
sequence, in call order. -/
def traceAddIds (s : TodoService) : List Op → List Int
  | [] => []
  | op :: ops =>
      match op with
      | .add_task d =>
          match (s.add_task d).1 with
          | .ok t => t.id :: traceAddIds (stepOp s op) ops
          | .error _ => traceAddIds (stepOp s op) ops
      | _ => traceAddIds (stepOp s op) ops

/-- The number of `add_task` calls in a sequence that succeed (success
depends only on the description, never on the state). -/
def okAddCount : List Op → Nat
  | [] => 0
  | .add_task d :: ops => (if blank d then 0 else 1) + okAddCount ops
  | _ :: ops => okAddCount ops

/-!
Reference-semantics embedding of the same two Python files, used where
aliasing is observable. In Python, `Task` is a mutable object: `self.tasks`
is a list of references to `Task` objects, and `get_all` returns
`self.tasks.copy()` — a new list containing the same references (a shallow
copy). Here the heap of allocated `Task` objects is explicit (`cells`,
indexed by allocation order) and `refs` is the store's list of references
into it.
-/

/-- The heap-level state: all allocated `Task` objects (`cells`, a reference
is an index into this list) together with the `TaskList` state (`refs` for
`self.tasks`, `next_id` for `self._next_id`). -/
structure HeapState where
  cells : List Task
  refs : List Nat
  next_id : Int
deriving Repr, DecidableEq

/-- Fresh store: no allocated objects, no references, counter at 1. -/
def HeapState.mkEmpty : HeapState :=
  { cells := [], refs := [], next_id := 1 }

/-- Dereference a `Task` object. -/
def HeapState.deref (s : HeapState) (r : Nat) : Option Task :=
  s.cells.get? r

/-- Embeds `TaskList.add` under reference semantics: allocate a new `Task` object,
append a reference to it, increment the counter; returns the reference. -/
def HeapState.add (s : HeapState) (description : String) : Nat × HeapState :=
  (s.cells.length,
   { cells := s.cells ++ [{ id := s.next_id, description := description, is_complete := false }],
     refs := s.refs ++ [s.cells.length],
     next_id := s.next_id + 1 })

/-- Embeds `TaskList.get_by_id` under reference semantics: first reference whose
object's `id` matches (the Python loop compares `task.id`). -/
def HeapState.get_by_id (s : HeapState) (task_id : Int) : Option Nat :=
  s.refs.find? (fun r =>
    match s.cells.get? r with
    | some t => t.id == task_id
    | none => false)

/-- Embeds `TaskList.get_all` under reference semantics: `self.tasks.copy()` — the
returned list is a fresh list object whose elements are the same references
as the store's own list. -/
def HeapState.get_all (s : HeapState) : List Nat :=
  s.refs

/-- Looking a task up by id and reading the object it refers to. -/
def HeapState.get_task (s : HeapState) (task_id : Int) : Option Task :=
  match s.get_by_id task_id with
  | some r => s.deref r
  | none => none

/-- Overwrite the cell at index `r` by its image under `f`
(no-op when `r` is out of range). -/
def writeCell (f : Task → Task) : List Task → Nat → List Task
  | [], _ => []
  | c :: cs, 0 => f c :: cs
  | c :: cs, n + 1 => c :: writeCell f cs n

/-- A caller assigning `task.description = d` through a reference it holds
(for example one taken from the list returned by `get_all`). -/
def HeapState.writeDescription (s : HeapState) (r : Nat) (d : String) : HeapState :=
  { s with cells := writeCell (fun t => { t with description := d }) s.cells r }

/-! ### Helper lemmas -/

theorem updateFirst_map_id (p : Task → Bool) (f : Task → Task)
    (hf : ∀ t, (f t).id = t.id) :
    ∀ ts : List Task, (updateFirst p f ts).map Task.id = ts.map Task.id := by
  intro ts
  induction ts with
  | nil => rfl
  | cons t ts ih =>
      by_cases h : p t = true
      · simp [updateFirst, h, hf]
      · simp [updateFirst, h, ih]

theorem find?_updateFirst_self (p : Task → Bool) (f : Task → Task)
    (hp : ∀ u, p (f u) = p u) {ts : List Task} {t : Task}
    (h : ts.find? p = some t) :
    (updateFirst p f ts).find? p = some (f t) := by
  induction ts with
  | nil => simp at h
  | cons u ts ih =>
      by_cases hu : p u = true
      · rw [List.find?_cons_of_pos _ hu] at h
        cases h
        rw [updateFirst, if_pos hu, List.find?_cons_of_pos _ (by rw [hp]; exact hu)]
      · rw [List.find?_cons_of_neg _ hu] at h
        rw [updateFirst, if_neg hu, List.find?_cons_of_neg _ hu]
        exact ih h

theorem find?_updateFirst_other (p q : Task → Bool) (f : Task → Task)
    (hq : ∀ u, q (f u) = q u) (hpq : ∀ u, p u = true → q u = false) :
    ∀ ts : List Task, (updateFirst p f ts).find? q = ts.find? q := by
  intro ts
  induction ts with
  | nil => rfl
  | cons u ts ih =>
      by_cases hu : p u = true
      · have hqu : q u = false := hpq u hu
        rw [updateFirst, if_pos hu,
          List.find?_cons_of_neg _ (by rw [hq]; simp [hqu]),
          List.find?_cons_of_neg _ (by simp [hqu])]
      · rw [updateFirst, if_neg hu]
        by_cases hqu : q u = true
        · rw [List.find?_cons_of_pos _ hqu, List.find?_cons_of_pos _ hqu]
        · rw [List.find?_cons_of_neg _ (by simp_all), List.find?_cons_of_neg _ (by simp_all)]
          exact ih

theorem updateFirst_eq_of_fix (p : Task → Bool) (f : Task → Task)
    {ts : List Task} {t : Task} (h : ts.find? p = some t) (hfix : f t = t) :
    updateFirst p f ts = ts := by
  induction ts with
  | nil => simp at h
  | cons u ts ih =>
      by_cases hu : p u = true
      · rw [List.find?_cons_of_pos _ hu] at h
        cases h
        rw [updateFirst, if_pos hu, hfix]
      · rw [List.find?_cons_of_neg _ hu] at h
        rw [updateFirst, if_neg hu, ih h]

theorem deleteFirst_fst (p : Task → Bool) :
    ∀ ts : List Task, (deleteFirst p ts).1 = ts.any p := by
  intro ts
  induction ts with
  | nil => rfl
  | cons u ts ih =>
      by_cases hu : p u = true
      · simp [deleteFirst, hu]
      · simp [deleteFirst, hu, ih]

theorem deleteFirst_snd (p : Task → Bool) :
    ∀ ts : List Task, (deleteFirst p ts).2 = ts.eraseP p := by
  intro ts
  induction ts with
  | nil => rfl
  | cons u ts ih =>
      by_cases hu : p u = true
      · simp [deleteFirst, hu, List.eraseP_cons, hu]
      · simp [deleteFirst, hu, List.eraseP_cons, ih]

theorem pyStrip_eq_empty_iff (s : String) :
    pyStrip s = "" ↔ ∀ c ∈ s.data, c.isWhitespace = true := by
  have hmk : ∀ l : List Char, String.mk l = "" ↔ l = [] := by
    intro l
    constructor
    · intro h
      have := congrArg String.data h
      simpa using this
    · intro h; rw [h]
  rw [pyStrip, hmk]
  constructor
  · intro h c hc
    have hdrop : ∀ x ∈ s.data.dropWhile Char.isWhitespace, x.isWhitespace = true := by
      intro x hx
      have h1 : (s.data.dropWhile Char.isWhitespace).reverse.dropWhile Char.isWhitespace = [] := by
        simpa using congrArg List.reverse h
      rw [List.dropWhile_eq_nil_iff] at h1
      exact h1 x (by simpa using hx)
    have hsplit := List.takeWhile_append_dropWhile Char.isWhitespace s.data
    rw [← hsplit] at hc
    rcases List.mem_append.1 hc with h1 | h1
    · exact List.mem_takeWhile_imp h1
    · exact hdrop c h1
  · intro h
    have h1 : s.data.dropWhile Char.isWhitespace = [] :=
      List.dropWhile_eq_nil_iff.2 (fun x hx => h x hx)
    simp [h1]

theorem blank_iff (s : String) :
    blank s = true ↔ (s = "" ∨ ∀ c ∈ s.data, c.isWhitespace = true) := by
  rw [blank, Bool.or_eq_true, beq_iff_eq, beq_iff_eq, pyStrip_eq_empty_iff]

/-! ### Shape lemmas: the explicit result of each service operation -/

theorem add_task_of_blank (s : TodoService) (d : String) (h : blank d = true) :
    s.add_task d = (Except.error "Description cannot be empty.", s) := by
  simp [TodoService.add_task, h]

theorem add_task_of_not_blank (s : TodoService) (d : String) (h : blank d = false) :
    s.add_task d =
      (Except.ok { id := s.task_list.next_id, description := d, is_complete := false },
       { task_list :=
         { tasks := s.task_list.tasks ++
             [{ id := s.task_list.next_id, description := d, is_complete := false }],
           next_id := s.task_list.next_id + 1 } }) := by
  simp [TodoService.add_task, h, TaskList.add]

theorem update_task_of_blank (s : TodoService) (i : Int) (d : String) (h : blank d = true) :
    s.update_task i d = (Except.error "Description cannot be empty.", s) := by
  simp [TodoService.update_task, h]

theorem update_task_of_found (s : TodoService) (i : Int) (d : String) {t : Task}
    (h : blank d = false) (hf : s.task_list.get_by_id i = some t) :
    s.update_task i d =
      (Except.ok true,
       { task_list :=
         { tasks := updateFirst (fun t => t.id == i)
             (fun t => { t with description := d }) s.task_list.tasks,
           next_id := s.task_list.next_id } }) := by
  simp [TodoService.update_task, h, TaskList.update, hf]

theorem update_task_of_missing (s : TodoService) (i : Int) (d : String)
    (h : blank d = false) (hf : s.task_list.get_by_id i = none) :
    s.update_task i d = (Except.ok false, s) := by
  simp [TodoService.update_task, h, TaskList.update, hf]

theorem delete_task_eq (s : TodoService) (i : Int) :
    s.delete_task i =
      (s.task_list.tasks.any (fun t => t.id == i),
       { task_list :=
         { tasks := s.task_list.tasks.eraseP (fun t => t.id == i),
           next_id := s.task_list.next_id } }) := by
  simp [TodoService.delete_task, TaskList.delete, deleteFirst_fst, deleteFirst_snd]

theorem mark_complete_of_found (s : TodoService) (i : Int) {t : Task}
    (hf : s.task_list.get_by_id i = some t) :
    s.mark_complete i =
      (true,
       { task_list :=
         { tasks := updateFirst (fun t => t.id == i)
             (fun t => { t with is_complete := true }) s.task_list.tasks,
           next_id := s.task_list.next_id } }) := by
  simp [TodoService.mark_complete, TaskList.mark_complete, hf]

theorem mark_complete_of_missing (s : TodoService) (i : Int)
    (hf : s.task_list.get_by_id i = none) :
    s.mark_complete i = (false, s) := by
  simp [TodoService.mark_complete, TaskList.mark_complete, hf]

theorem mark_incomplete_of_found (s : TodoService) (i : Int) {t : Task}
    (hf : s.task_list.get_by_id i = some t) :
    s.mark_incomplete i =
      (true,
       { task_list :=
         { tasks := updateFirst (fun t => t.id == i)
             (fun t => { t with is_complete := false }) s.task_list.tasks,
           next_id := s.task_list.next_id } }) := by
  simp [TodoService.mark_incomplete, TaskList.mark_incomplete, hf]

theorem mark_incomplete_of_missing (s : TodoService) (i : Int)
    (hf : s.task_list.get_by_id i = none) :
    s.mark_incomplete i = (false, s) := by
  simp [TodoService.mark_incomplete, TaskList.mark_incomplete, hf]

/-! ### The store invariant and its preservation -/

/-- The store invariant: identifiers appear in strictly increasing order
(insertion order equals identifier order) and every stored identifier is
below the counter. -/
def Inv (s : TodoService) : Prop :=
  (s.task_list.tasks.map Task.id).Pairwise (· < ·) ∧
  ∀ t ∈ s.task_list.tasks, t.id < s.task_list.next_id

theorem inv_mkEmpty : Inv TodoService.mkEmpty := by
  constructor
  · simp [TodoService.mkEmpty, TaskList.mkEmpty]
  · simp [TodoService.mkEmpty, TaskList.mkEmpty]

theorem bound_of_map_id_eq {ts ts' : List Task} {n : Int}
    (hmap : ts'.map Task.id = ts.map Task.id)
    (hb : ∀ t ∈ ts, t.id < n) :
    ∀ t ∈ ts', t.id < n := by
  intro t ht
  have : t.id ∈ ts.map Task.id := by
    rw [← hmap]
    exact List.mem_map_of_mem Task.id ht
  rcases List.mem_map.1 this with ⟨u, hu, hid⟩
  rw [← hid]
  exact hb u hu

theorem next_id_stepOp_mono (s : TodoService) (op : Op) :
    s.task_list.next_id ≤ (stepOp s op).task_list.next_id := by
  cases op with
  | add_task d =>
      cases hb : blank d with
      | true => rw [stepOp, add_task_of_blank s d hb]
      | false => rw [stepOp, add_task_of_not_blank s d hb]; simp
  | update_task i d =>
      cases hb : blank d with
      | true => rw [stepOp, update_task_of_blank s i d hb]
      | false =>
          cases hfind : s.task_list.get_by_id i with
          | some t => rw [stepOp, update_task_of_found s i d hb hfind]
          | none => rw [stepOp, update_task_of_missing s i d hb hfind]
  | delete_task i => rw [stepOp, delete_task_eq s i]
  | mark_complete i =>
      cases hfind : s.task_list.get_by_id i with
      | some t => rw [stepOp, mark_complete_of_found s i hfind]
      | none => rw [stepOp, mark_complete_of_missing s i hfind]
  | mark_incomplete i =>
      cases hfind : s.task_list.get_by_id i with
      | some t => rw [stepOp, mark_incomplete_of_found s i hfind]
      | none => rw [stepOp, mark_incomplete_of_missing s i hfind]

theorem inv_stepOp (s : TodoService) (op : Op) (h : Inv s) : Inv (stepOp s op) := by
  obtain ⟨hpw, hb⟩ := h
  cases op with
  | add_task d =>
      cases hbl : blank d with
      | true => rw [stepOp, add_task_of_blank s d hbl]; exact ⟨hpw, hb⟩
      | false =>
          rw [stepOp, add_task_of_not_blank s d hbl]
          constructor
          · simp only [List.map_append, List.map_cons, List.map_nil]
            rw [List.pairwise_append]
            refine ⟨hpw, by simp, ?_⟩
            intro a ha b hb'
            simp only [List.mem_cons, List.not_mem_nil, or_false] at hb'
            rcases List.mem_map.1 ha with ⟨u, hu, hid⟩
            rw [← hid, hb']
            exact hb u hu
          · intro t ht
            simp only [List.mem_append, List.mem_cons, List.not_mem_nil, or_false] at ht
            rcases ht with ht | ht
            · exact lt_trans (hb t ht) (lt_add_one _)
            · rw [ht]; simp
  | update_task i d =>
      cases hbl : blank d with
      | true => rw [stepOp, update_task_of_blank s i d hbl]; exact ⟨hpw, hb⟩
      | false =>
          cases hfind : s.task_list.get_by_id i with
          | none => rw [stepOp, update_task_of_missing s i d hbl hfind]; exact ⟨hpw, hb⟩
          | some t =>
              have hmap := updateFirst_map_id (fun t => t.id == i)
                (fun t => { t with description := d }) (fun t => rfl) s.task_list.tasks
              rw [stepOp, update_task_of_found s i d hbl hfind]
              exact ⟨hmap ▸ hpw, bound_of_map_id_eq hmap hb⟩
  | delete_task i =>
      have hsub : (s.task_list.tasks.eraseP (fun t => t.id == i)).Sublist s.task_list.tasks :=
        List.eraseP_sublist _
      rw [stepOp, delete_task_eq s i]
      constructor
      · exact List.Pairwise.sublist (List.Sublist.map Task.id hsub) hpw
      · intro t ht
        exact hb t (List.Sublist.subset hsub ht)
  | mark_complete i =>
      cases hfind : s.task_list.get_by_id i with
      | none => rw [stepOp, mark_complete_of_missing s i hfind]; exact ⟨hpw, hb⟩
      | some t =>
          have hmap := updateFirst_map_id (fun t => t.id == i)
            (fun t => { t with is_complete := true }) (fun t => rfl) s.task_list.tasks
          rw [stepOp, mark_complete_of_found s i hfind]
          exact ⟨hmap ▸ hpw, bound_of_map_id_eq hmap hb⟩
  | mark_incomplete i =>
      cases hfind : s.task_list.get_by_id i with
      | none => rw [stepOp, mark_incomplete_of_missing s i hfind]; exact ⟨hpw, hb⟩
      | some t =>
          have hmap := updateFirst_map_id (fun t => t.id == i)
            (fun t => { t with is_complete := false }) (fun t => rfl) s.task_list.tasks
          rw [stepOp, mark_incomplete_of_found s i hfind]
          exact ⟨hmap ▸ hpw, bound_of_map_id_eq hmap hb⟩

theorem inv_runFrom (ops : List Op) : ∀ s : TodoService, Inv s → Inv (runFrom s ops) := by
  induction ops with
  | nil => intro s h; exact h
  | cons op ops ih => intro s h; exact ih (stepOp s op) (inv_stepOp s op h)

theorem inv_runOps (ops : List Op) : Inv (runOps ops) :=
  inv_runFrom ops TodoService.mkEmpty inv_mkEmpty

/-! ### Identifier assignment along a trace -/

theorem next_id_stepOp_update (s : TodoService) (i : Int) (d : String) :
    (stepOp s (Op.update_task i d)).task_list.next_id = s.task_list.next_id := by
  cases hb : blank d with
  | true => rw [stepOp, update_task_of_blank s i d hb]
  | false =>
      cases hfind : s.task_list.get_by_id i with
      | some t => rw [stepOp, update_task_of_found s i d hb hfind]
      | none => rw [stepOp, update_task_of_missing s i d hb hfind]

theorem next_id_stepOp_delete (s : TodoService) (i : Int) :
    (stepOp s (Op.delete_task i)).task_list.next_id = s.task_list.next_id := by
  rw [stepOp, delete_task_eq s i]

theorem next_id_stepOp_mark_complete (s : TodoService) (i : Int) :
    (stepOp s (Op.mark_complete i)).task_list.next_id = s.task_list.next_id := by
  cases hfind : s.task_list.get_by_id i with
  | some t => rw [stepOp, mark_complete_of_found s i hfind]
  | none => rw [stepOp, mark_complete_of_missing s i hfind]

theorem next_id_stepOp_mark_incomplete (s : TodoService) (i : Int) :
    (stepOp s (Op.mark_incomplete i)).task_list.next_id = s.task_list.next_id := by
  cases hfind : s.task_list.get_by_id i with
  | some t => rw [stepOp, mark_incomplete_of_found s i hfind]
  | none => rw [stepOp, mark_incomplete_of_missing s i hfind]

theorem traceAddIds_spec (ops : List Op) : ∀ s : TodoService,
    traceAddIds s ops =
      (List.range (okAddCount ops)).map (fun i : Nat => s.task_list.next_id + (i : Int)) := by
  induction ops with
  | nil => intro s; rfl
  | cons op ops ih =>
      intro s
      cases op with
      | add_task d =>
          cases hb : blank d with
          | true =>
              have h1 := add_task_of_blank s d hb
              simp only [traceAddIds, stepOp, h1, okAddCount, hb, if_true]
              simpa using ih s
          | false =>
              have h1 := add_task_of_not_blank s d hb
              simp only [traceAddIds, stepOp, h1, okAddCount, hb, if_false]
              rw [ih]
              simp only [Bool.false_eq_true, if_false, Nat.add_comm 1 (okAddCount ops),
                List.range_succ_eq_map, List.map_cons, List.map_map]
              congr 1
              · simp
              · apply List.map_congr_left
                intro i _
                simp only [Function.comp]
                push_cast
                ring
      | update_task i d =>
          simp only [traceAddIds, okAddCount, ih, next_id_stepOp_update]
      | delete_task i =>
          simp only [traceAddIds, okAddCount, ih, next_id_stepOp_delete]
      | mark_complete i =>
          simp only [traceAddIds, okAddCount, ih, next_id_stepOp_mark_complete]
      | mark_incomplete i =>
          simp only [traceAddIds, okAddCount, ih, next_id_stepOp_mark_incomplete]

/-- C1: along any operation sequence from a fresh service, the identifiers
returned by the successful `add_task` calls are exactly the consecutive
integers 1, 2, 3, … in call order — strictly increasing, starting at 1, and
(in particular) an identifier freed by `delete_task` is never assigned again. -/
theorem add_ids_consecutive_from_one (ops : List Op) :
    traceAddIds TodoService.mkEmpty ops =
      (List.range (traceAddIds TodoService.mkEmpty ops).length).map
        (fun i : Nat => (i : Int) + 1) := by
  rw [traceAddIds_spec ops TodoService.mkEmpty]
  simp only [List.length_map, List.length_range]
  apply List.map_congr_left
  intro i _
  show (1 : Int) + (i : Int) = (i : Int) + 1
  ring

/-- C2: in every state reachable from a fresh service, stored identifiers
are pairwise distinct and all strictly below the counter, and no operation,
from any state whatsoever, ever decreases the counter. -/
theorem store_invariants (ops : List Op) :
    (((runOps ops).task_list.tasks.map Task.id).Nodup ∧
      ∀ t ∈ (runOps ops).task_list.tasks, t.id < (runOps ops).task_list.next_id) ∧
    ∀ (s : TodoService) (op : Op),
      s.task_list.next_id ≤ (stepOp s op).task_list.next_id := by
  obtain ⟨hpw, hb⟩ := inv_runOps ops
  exact ⟨⟨List.Pairwise.imp (fun h => ne_of_lt h) hpw, hb⟩, next_id_stepOp_mono⟩

/-- C3: `add_task` fails exactly on an empty or whitespace-only description;
on any other description it returns a task carrying the given description
verbatim, not yet complete, with the next sequential identifier. -/
theorem add_task_validation (s : TodoService) (d : String) :
    ((∃ e, (s.add_task d).1 = Except.error e) ↔
      (d = "" ∨ ∀ c ∈ d.data, c.isWhitespace = true)) ∧
    ∀ t, (s.add_task d).1 = Except.ok t →
      t.description = d ∧ t.is_complete = false ∧ t.id = s.task_list.next_id := by
  cases hb : blank d with
  | true =>
      rw [add_task_of_blank s d hb]
      refine ⟨⟨fun _ => (blank_iff d).1 hb, fun _ => ⟨_, rfl⟩⟩, ?_⟩
      intro t ht
      exact absurd ht (by simp)
  | false =>
      rw [add_task_of_not_blank s d hb]
      constructor
      · constructor
        · rintro ⟨e, he⟩
          exact absurd he (by simp)
        · intro h
          rw [(blank_iff d).2 h] at hb
          exact absurd hb (by simp)
      · intro t ht
        have : { id := s.task_list.next_id, description := d, is_complete := false } = t :=
          Except.ok.inj ht
        rw [← this]
        exact ⟨rfl, rfl, rfl⟩

theorem add_task_validation_witness :
    ((TodoService.mkEmpty.add_task "buy milk").1 =
      Except.ok { id := 1, description := "buy milk", is_complete := false }) ∧
    ({ id := 1, description := "buy milk", is_complete := false } : Task).description =
      "buy milk" ∧
    ({ id := 1, description := "buy milk", is_complete := false } : Task).is_complete = false ∧
    ({ id := 1, description := "buy milk", is_complete := false } : Task).id =
      TodoService.mkEmpty.task_list.next_id :=
  ⟨rfl, (add_task_validation TodoService.mkEmpty "buy milk").2
    { id := 1, description := "buy milk", is_complete := false } rfl⟩

/-- C9: a rejected (empty or whitespace-only) description leaves the whole
service state unchanged — for `add_task`, no task appended and the counter
not incremented; for `update_task`, no task modified. -/
theorem invalid_input_preserves_state (s : TodoService) (d : String) (i : Int)
    (h : d = "" ∨ ∀ c ∈ d.data, c.isWhitespace = true) :
    s.add_task d = (Except.error "Description cannot be empty.", s) ∧
    s.update_task i d = (Except.error "Description cannot be empty.", s) := by
  have hb : blank d = true := (blank_iff d).2 h
  exact ⟨add_task_of_blank s d hb, update_task_of_blank s i d hb⟩

theorem invalid_input_preserves_state_witness :
    TodoService.mkEmpty.add_task "   " =
      (Except.error "Description cannot be empty.", TodoService.mkEmpty) ∧
    TodoService.mkEmpty.update_task 7 "   " =
      (Except.error "Description cannot be empty.", TodoService.mkEmpty) :=
  invalid_input_preserves_state TodoService.mkEmpty "   " 7 (by decide)

theorem blank_eq_false_of_not (d : String)
    (hd : ¬(d = "" ∨ ∀ c ∈ d.data, c.isWhitespace = true)) : blank d = false := by
  cases hb : blank d with
  | false => rfl
  | true => exact absurd ((blank_iff d).1 hb) hd

theorem beq_id_of_ne {i j : Int} (u : Task) (hij : j ≠ i) (hu : (u.id == i) = true) :
    (u.id == j) = false := by
  rw [beq_iff_eq] at hu
  rw [beq_eq_false_iff_ne, hu]
  exact fun h => hij h.symm

/-- C5: updating an existing task with a valid description succeeds; the task
then reads back with the new description and its `id` and `is_complete`
intact, and every other identifier reads back exactly as before. -/
theorem update_task_roundtrip (s : TodoService) (i : Int) (d : String) (t : Task)
    (hget : s.get_task i = some t)
    (hd : ¬(d = "" ∨ ∀ c ∈ d.data, c.isWhitespace = true)) :
    (s.update_task i d).1 = Except.ok true ∧
    (s.update_task i d).2.get_task i = some { t with description := d } ∧
    ∀ j, j ≠ i → (s.update_task i d).2.get_task j = s.get_task j := by
  have hb : blank d = false := blank_eq_false_of_not d hd
  have hfind : s.task_list.tasks.find? (fun u => u.id == i) = some t := hget
  rw [update_task_of_found s i d hb hget]
  refine ⟨rfl, ?_, ?_⟩
  · exact find?_updateFirst_self (fun u => u.id == i)
      (fun u => { u with description := d }) (fun u => rfl) hfind
  · intro j hj
    exact find?_updateFirst_other (fun u => u.id == i) (fun u => u.id == j)
      (fun u => { u with description := d }) (fun u => rfl)
      (fun u hu => beq_id_of_ne u hj hu) s.task_list.tasks

theorem update_task_roundtrip_witness :
    ((runOps [Op.add_task "a"]).update_task 1 "new text").1 = Except.ok true ∧
    ((runOps [Op.add_task "a"]).update_task 1 "new text").2.get_task 1 =
      some { id := 1, description := "new text", is_complete := false } := by
  have h := update_task_roundtrip (runOps [Op.add_task "a"]) 1 "new text"
    { id := 1, description := "a", is_complete := false } (by decide) (by decide)
  exact ⟨h.1, h.2.1⟩

theorem mark_complete_already (s : TodoService) (i : Int) (t : Task)
    (hget : s.get_task i = some t) (ht : t.is_complete = true) :
    s.mark_complete i = (true, s) := by
  have hfind : s.task_list.tasks.find? (fun u => u.id == i) = some t := hget
  have hfix : ({ t with is_complete := true } : Task) = t := by rw [← ht]
  rw [mark_complete_of_found s i hget, updateFirst_eq_of_fix _ _ hfind hfix]

theorem mark_incomplete_already (s : TodoService) (i : Int) (t : Task)
    (hget : s.get_task i = some t) (ht : t.is_complete = false) :
    s.mark_incomplete i = (true, s) := by
  have hfind : s.task_list.tasks.find? (fun u => u.id == i) = some t := hget
  have hfix : ({ t with is_complete := false } : Task) = t := by rw [← ht]
  rw [mark_incomplete_of_found s i hget, updateFirst_eq_of_fix _ _ hfind hfix]

/-- C7: on an existing task both mark operations always report success;
marking a task that is already in the target state leaves the whole service
state identical, and applying the same mark operation a second time changes
nothing beyond the first application. -/
theorem mark_success_and_idempotent (s : TodoService) (i : Int) (t : Task)
    (hget : s.get_task i = some t) :
    (s.mark_complete i).1 = true ∧
    (s.mark_incomplete i).1 = true ∧
    (t.is_complete = true → (s.mark_complete i).2 = s) ∧
    (t.is_complete = false → (s.mark_incomplete i).2 = s) ∧
    (s.mark_complete i).2.mark_complete i = (true, (s.mark_complete i).2) ∧
    (s.mark_incomplete i).2.mark_incomplete i = (true, (s.mark_incomplete i).2) := by
  have hfind : s.task_list.tasks.find? (fun u => u.id == i) = some t := hget
  have hgetc : (s.mark_complete i).2.get_task i = some { t with is_complete := true } := by
    rw [mark_complete_of_found s i hget]
    exact find?_updateFirst_self (fun u => u.id == i)
      (fun u => { u with is_complete := true }) (fun u => rfl) hfind
  have hgeti : (s.mark_incomplete i).2.get_task i = some { t with is_complete := false } := by
    rw [mark_incomplete_of_found s i hget]
    exact find?_updateFirst_self (fun u => u.id == i)
      (fun u => { u with is_complete := false }) (fun u => rfl) hfind
  refine ⟨?_, ?_, ?_, ?_, ?_, ?_⟩
  · rw [mark_complete_of_found s i hget]
  · rw [mark_incomplete_of_found s i hget]
  · intro ht
    rw [mark_complete_already s i t hget ht]
  · intro ht
    rw [mark_incomplete_already s i t hget ht]
  · exact mark_complete_already _ i _ hgetc rfl
  · exact mark_incomplete_already _ i _ hgeti rfl

theorem mark_success_and_idempotent_witness :
    ((runOps [Op.add_task "a"]).mark_complete 1).1 = true ∧
    ((runOps [Op.add_task "a"]).mark_incomplete 1).2 = runOps [Op.add_task "a"] ∧
    ((runOps [Op.add_task "a"]).mark_complete 1).2.mark_complete 1 =
      (true, ((runOps [Op.add_task "a"]).mark_complete 1).2) := by
  have h := mark_success_and_idempotent (runOps [Op.add_task "a"]) 1
    { id := 1, description := "a", is_complete := false } (by decide)
  exact ⟨h.1, h.2.2.2.1 rfl, h.2.2.2.2.1⟩

theorem find?_eraseP_id (i : Int) :
    ∀ ts : List Task, (ts.map Task.id).Nodup →
      (ts.eraseP (fun t => t.id == i)).find? (fun t => t.id == i) = none := by
  intro ts
  induction ts with
  | nil => intro _; rfl
  | cons u ts ih =>
      intro hnd
      rw [List.map_cons, List.nodup_cons] at hnd
      obtain ⟨hmem, hnd2⟩ := hnd
      by_cases hu : (u.id == i) = true
      · rw [List.eraseP_cons_of_pos (p := fun t : Task => t.id == i) hu, List.find?_eq_none]
        intro x hx hxp
        rw [beq_iff_eq] at hu hxp
        have : x.id ∈ List.map Task.id ts := List.mem_map_of_mem Task.id hx
        rw [hxp, ← hu] at this
        exact hmem this
      · rw [List.eraseP_cons_of_neg (p := fun t : Task => t.id == i) hu,
          List.find?_cons_of_neg (p := fun t : Task => t.id == i) _ hu]
        exact ih hnd2

/-- C6: for an identifier with no task, `get_task` is absent and the four
mutating lookups return plain failure with the state unchanged (no
exception is modelled as possible for them); conversely a successful
`delete_task` makes a subsequent `get_task` on that identifier absent. -/
theorem missing_id_behaviour (ops : List Op) (i : Int) (d : String) :
    ((runOps ops).get_task i = none →
      (¬(d = "" ∨ ∀ c ∈ d.data, c.isWhitespace = true) →
        (runOps ops).update_task i d = (Except.ok false, runOps ops)) ∧
      (runOps ops).delete_task i = (false, runOps ops) ∧
      (runOps ops).mark_complete i = (false, runOps ops) ∧
      (runOps ops).mark_incomplete i = (false, runOps ops)) ∧
    (((runOps ops).delete_task i).1 = true →
      ((runOps ops).delete_task i).2.get_task i = none) := by
  constructor
  · intro hnone
    have hall : ∀ u ∈ (runOps ops).task_list.tasks, ¬((u.id == i) = true) :=
      List.find?_eq_none.1 hnone
    refine ⟨?_, ?_, ?_, ?_⟩
    · intro hd
      exact update_task_of_missing _ i d (blank_eq_false_of_not d hd) hnone
    · rw [delete_task_eq,
        List.any_eq_false.2 hall,
        List.eraseP_of_forall_not hall]
    · exact mark_complete_of_missing _ i hnone
    · exact mark_incomplete_of_missing _ i hnone
  · intro _
    obtain ⟨hpw, _⟩ := inv_runOps ops
    have hnd : ((runOps ops).task_list.tasks.map Task.id).Nodup :=
      List.Pairwise.imp (fun h => ne_of_lt h) hpw
    rw [delete_task_eq]
    exact find?_eraseP_id i _ hnd

theorem missing_id_behaviour_witness :
    (runOps [Op.add_task "a"]).update_task 2 "x" =
      (Except.ok false, runOps [Op.add_task "a"]) ∧
    (runOps [Op.add_task "a"]).mark_complete 2 = (false, runOps [Op.add_task "a"]) ∧
    ((runOps [Op.add_task "a"]).delete_task 1).2.get_task 1 = none ∧
    ((runOps []).update_task 999 "x").1 = Except.ok false := by
  have h1 := missing_id_behaviour [Op.add_task "a"] 2 "x"
  have h2 := missing_id_behaviour [Op.add_task "a"] 1 "x"
  have h3 := missing_id_behaviour [] 999 "x"
  refine ⟨((h1.1 (by decide)).1 (by decide)), (h1.1 (by decide)).2.2.1,
    h2.2 (by decide), ?_⟩
  rw [(h3.1 (by decide)).1 (by decide)]

/-! ### Display order (C4) -/

theorem ids_update_task (s : TodoService) (i : Int) (d : String) :
    ((s.update_task i d).2.get_all_tasks).map Task.id =
      (s.get_all_tasks).map Task.id := by
  cases hb : blank d with
  | true => rw [update_task_of_blank s i d hb]
  | false =>
      cases hfind : s.task_list.get_by_id i with
      | none => rw [update_task_of_missing s i d hb hfind]
      | some t =>
          rw [update_task_of_found s i d hb hfind]
          exact updateFirst_map_id (fun u => u.id == i)
            (fun u => { u with description := d }) (fun u => rfl) s.task_list.tasks

theorem ids_mark_complete (s : TodoService) (i : Int) :
    ((s.mark_complete i).2.get_all_tasks).map Task.id =
      (s.get_all_tasks).map Task.id := by
  cases hfind : s.task_list.get_by_id i with
  | none => rw [mark_complete_of_missing s i hfind]
  | some t =>
      rw [mark_complete_of_found s i hfind]
      exact updateFirst_map_id (fun u => u.id == i)
        (fun u => { u with is_complete := true }) (fun u => rfl) s.task_list.tasks

theorem ids_mark_incomplete (s : TodoService) (i : Int) :
    ((s.mark_incomplete i).2.get_all_tasks).map Task.id =
      (s.get_all_tasks).map Task.id := by
  cases hfind : s.task_list.get_by_id i with
  | none => rw [mark_incomplete_of_missing s i hfind]
  | some t =>
      rw [mark_incomplete_of_found s i hfind]
      exact updateFirst_map_id (fun u => u.id == i)
        (fun u => { u with is_complete := false }) (fun u => rfl) s.task_list.tasks

theorem ids_delete_task (s : TodoService) (i : Int) :
    ((s.delete_task i).2.get_all_tasks).map Task.id =
      ((s.get_all_tasks).map Task.id).eraseP (fun j => j == i) := by
  rw [delete_task_eq s i]
  show (s.task_list.tasks.eraseP (fun t => t.id == i)).map Task.id =
    (s.task_list.tasks.map Task.id).eraseP (fun j => j == i)
  rw [List.eraseP_map]
  rfl

/-- C4: after any operation sequence the identifiers listed by
`get_all_tasks` are strictly increasing — the display order is exactly the
order of addition — and `update_task`, `mark_complete`, `mark_incomplete`
leave the identifier sequence untouched while `delete_task` only removes
the deleted identifier from it. -/
theorem display_order_preserved :
    (∀ ops : List Op, ((runOps ops).get_all_tasks.map Task.id).Pairwise (· < ·)) ∧
    (∀ (s : TodoService) (i : Int) (d : String),
      ((s.update_task i d).2.get_all_tasks).map Task.id =
        (s.get_all_tasks).map Task.id) ∧
    (∀ (s : TodoService) (i : Int),
      ((s.mark_complete i).2.get_all_tasks).map Task.id =
        (s.get_all_tasks).map Task.id) ∧
    (∀ (s : TodoService) (i : Int),
      ((s.mark_incomplete i).2.get_all_tasks).map Task.id =
        (s.get_all_tasks).map Task.id) ∧
    (∀ (s : TodoService) (i : Int),
      ((s.delete_task i).2.get_all_tasks).map Task.id =
        ((s.get_all_tasks).map Task.id).eraseP (fun j => j == i)) :=
  ⟨fun ops => (inv_runOps ops).1, ids_update_task, ids_mark_complete,
    ids_mark_incomplete, ids_delete_task⟩

theorem find?_append_fresh (ts : List Task) (u : Task)
    (h : ∀ x ∈ ts, x.id ≠ u.id) :
    (ts ++ [u]).find? (fun x => x.id == u.id) = some u := by
  have hnone : ts.find? (fun x => x.id == u.id) = none := by
    rw [List.find?_eq_none]
    intro x hx hxp
    rw [beq_iff_eq] at hxp
    exact h x hx hxp
  rw [List.find?_append, hnone, Option.none_or, List.find?_cons_of_pos _ (by simp)]

/-- C10: a valid description is stored character-for-character: the task
returned by `add_task` carries it verbatim and reads back unchanged, and
after `update_task` the task reads back with exactly the given text. -/
theorem descriptions_verbatim (ops : List Op) (d : String)
    (hd : ¬(d = "" ∨ ∀ c ∈ d.data, c.isWhitespace = true)) :
    (∀ t, ((runOps ops).add_task d).1 = Except.ok t →
      t.description = d ∧ ((runOps ops).add_task d).2.get_task t.id = some t) ∧
    ∀ (i : Int) (t : Task), (runOps ops).get_task i = some t →
      ((runOps ops).update_task i d).2.get_task i = some { t with description := d } := by
  have hb : blank d = false := blank_eq_false_of_not d hd
  constructor
  · intro t ht
    rw [add_task_of_not_blank _ d hb] at ht
    have heq := Except.ok.inj ht
    rw [add_task_of_not_blank _ d hb, ← heq]
    obtain ⟨_, hbound⟩ := inv_runOps ops
    refine ⟨rfl, ?_⟩
    exact find?_append_fresh _ _ (fun x hx hxp => absurd hxp (ne_of_lt (hbound x hx)))
  · intro i t hget
    have hfind : (runOps ops).task_list.tasks.find? (fun u => u.id == i) = some t := hget
    rw [update_task_of_found _ i d hb hget]
    exact find?_updateFirst_self (fun u => u.id == i)
      (fun u => { u with description := d }) (fun u => rfl) hfind

theorem descriptions_verbatim_witness :
    ({ id := 2, description := "  padded  ", is_complete := false } : Task).description =
      "  padded  " ∧
    ((runOps [Op.add_task "a"]).add_task "  padded  ").2.get_task 2 =
      some { id := 2, description := "  padded  ", is_complete := false } ∧
    ((runOps [Op.add_task "a"]).update_task 1 "  padded  ").2.get_task 1 =
      some { id := 1, description := "  padded  ", is_complete := false } := by
  have h := descriptions_verbatim [Op.add_task "a"] "  padded  " (by decide)
  have h1 := h.1 { id := 2, description := "  padded  ", is_complete := false } rfl
  exact ⟨h1.1, h1.2, h.2 1 { id := 1, description := "a", is_complete := false } (by decide)⟩

/-! ### Aliasing behaviour of `get_all` (C8), in the reference-semantics model -/

theorem writeCell_get? (f : Task → Task) :
    ∀ (cs : List Task) (r r' : Nat),
      (writeCell f cs r).get? r' = if r' = r then (cs.get? r).map f else cs.get? r' := by
  intro cs
  induction cs with
  | nil =>
      intro r r'
      by_cases h : r' = r
      · rw [if_pos h]; simp [writeCell]
      · rw [if_neg h]; simp [writeCell]
  | cons c cs ih =>
      intro r r'
      cases r with
      | zero =>
          cases r' with
          | zero => simp [writeCell]
          | succ m => simp [writeCell]
      | succ n =>
          cases r' with
          | zero => simp [writeCell]
          | succ m =>
              simp only [writeCell, List.get?_cons_succ, ih]
              by_cases h : m = n
              · rw [if_pos h, if_pos (by omega)]
              · rw [if_neg h, if_neg (by omega)]

/-- C8 counterexample: after adding task "a", assigning a new description to
the `Task` record reached through the collection returned by `get_all`
changes what a subsequent `get_task` observes — the copy is shallow, so a
caller-side mutation of a contained record does corrupt the store's
observable state, contrary to the claim. -/
theorem get_all_mutation_visible_counterexample :
    (HeapState.mkEmpty.add "a").2.get_task 1 =
      some { id := 1, description := "a", is_complete := false } ∧
    ((HeapState.mkEmpty.add "a").2.writeDescription
        ((HeapState.mkEmpty.add "a").2.get_all.headD 0) "hacked").get_task 1 =
      some { id := 1, description := "hacked", is_complete := false } := by
  decide

/-- C8 as amended: `get_all` returns a shallow copy. The store's own
reference list is untouched by the caller's write (mutating the returned
list object itself can never reach the store), but the `Task` records are
shared: a description written through a reference that the store maps to
identifier `i` — a reference the returned collection contains — is what a
subsequent `get_task i` observes. -/
theorem get_all_shallow_copy (s : HeapState) (i : Int) (r : Nat) (d : String) (t : Task)
    (hfind : s.get_by_id i = some r) (hmem : r ∈ s.get_all) (hderef : s.deref r = some t) :
    (s.writeDescription r d).get_all = s.get_all ∧
    (s.writeDescription r d).get_task i = some { t with description := d } := by
  have _keep := hmem
  have hpred :
      (fun q => match (writeCell (fun u => { u with description := d }) s.cells r).get? q with
        | some u => u.id == i
        | none => false) =
      (fun q => match s.cells.get? q with
        | some u => u.id == i
        | none => false) := by
    funext q
    rw [writeCell_get?]
    by_cases h : q = r
    · rw [if_pos h, h]
      cases s.cells.get? r <;> rfl
    · rw [if_neg h]
  have hfind2 : (s.writeDescription r d).get_by_id i = some r := by
    have heq : (s.writeDescription r d).get_by_id i = s.get_by_id i := by
      simp only [HeapState.get_by_id, HeapState.writeDescription]
      rw [hpred]
    rw [heq]
    exact hfind
  refine ⟨rfl, ?_⟩
  have hcell : s.cells.get? r = some t := hderef
  simp only [HeapState.get_task, hfind2]
  simp only [HeapState.deref, HeapState.writeDescription]
  rw [writeCell_get?, if_pos rfl, hcell]
  rfl

theorem get_all_shallow_copy_witness :
    ((HeapState.mkEmpty.add "a").2.writeDescription 0 "x").get_all =
      (HeapState.mkEmpty.add "a").2.get_all ∧
    ((HeapState.mkEmpty.add "a").2.writeDescription 0 "x").get_task 1 =
      some { id := 1, description := "x", is_complete := false } :=
  get_all_shallow_copy (HeapState.mkEmpty.add "a").2 1 0 "x"
    { id := 1, description := "a", is_complete := false }
    (by decide) (by decide) (by decide)

end Todo
